import Mathlib

/-!
Verification development for `keyboard2thejoystick.c`, a USB-keyboard to
virtual-THEJOYSTICK translator.  The C program is shallowly embedded: machine
integers become `Int`, the global mapping table and engine flags become an
explicit state record, and writes to the uinput device become an emitted list
of input events.  Filesystem, ioctl and timing side effects are outside the
embedding; the event-level and state-level behaviour of every function is
translated directly from the source.
-/

namespace K2J

/- ================================================================
   Linux input-event constants used by the program (from linux/input.h),
   with the numeric values the C macros expand to.
   ================================================================ -/

def EV_SYN : Int := 0
def EV_KEY : Int := 1
def EV_ABS : Int := 3
def EV_MSC : Int := 4
def SYN_REPORT : Int := 0
def MSC_SCAN : Int := 4
def ABS_X : Int := 0
def ABS_Y : Int := 1

def KEY_ESC : Int := 1
def KEY_LEFTCTRL : Int := 29
def KEY_RIGHTCTRL : Int := 97
def KEY_S : Int := 31
def KEY_R : Int := 19
def KEY_Q : Int := 16
def KEY_A : Int := 30
def KEY_1 : Int := 2
def KEY_UP : Int := 103
def KEY_DOWN : Int := 108
def KEY_ENTER : Int := 28
def KEY_SPACE : Int := 57
def KEY_LEFTALT : Int := 56

def BTN_TRIGGER : Int := 288

def AXIS_CENTER : Int := 127

def NUM_DIRECTIONS : Nat := 8
def NUM_MAPPINGS : Nat := 16

/- ================================================================
   Key name table (keycode_to_name / parse_keyname)
   ================================================================ -/

/-- One row of the C `key_names` table: a key code and its readable name. -/
structure KeyName where
  code : Int
  name : String
deriving DecidableEq, Repr

/-- First quarter of the C `key_names` table (source order, with the numeric
values of the `KEY_*` macros); split into chunks only to keep elaboration
fast, `key_names` below is the full table. -/
def key_names_a : List KeyName := [
  ⟨1, "esc"⟩, ⟨2, "1"⟩, ⟨3, "2"⟩, ⟨4, "3"⟩, ⟨5, "4"⟩, ⟨6, "5"⟩,
  ⟨7, "6"⟩, ⟨8, "7"⟩, ⟨9, "8"⟩, ⟨10, "9"⟩, ⟨11, "0"⟩,
  ⟨12, "minus"⟩, ⟨13, "equal"⟩, ⟨14, "backspace"⟩, ⟨15, "tab"⟩,
  ⟨16, "q"⟩, ⟨17, "w"⟩, ⟨18, "e"⟩, ⟨19, "r"⟩, ⟨20, "t"⟩, ⟨21, "y"⟩,
  ⟨22, "u"⟩, ⟨23, "i"⟩, ⟨24, "o"⟩, ⟨25, "p"⟩ ]

/-- Second quarter of the C `key_names` table. -/
def key_names_b : List KeyName := [
  ⟨26, "bracketleft"⟩, ⟨27, "bracketright"⟩, ⟨28, "enter"⟩,
  ⟨29, "lctrl"⟩, ⟨30, "a"⟩, ⟨31, "s"⟩, ⟨32, "d"⟩, ⟨33, "f"⟩,
  ⟨34, "g"⟩, ⟨35, "h"⟩, ⟨36, "j"⟩, ⟨37, "k"⟩, ⟨38, "l"⟩,
  ⟨39, "semicolon"⟩, ⟨40, "apostrophe"⟩, ⟨41, "grave"⟩,
  ⟨42, "lshift"⟩, ⟨43, "backslash"⟩,
  ⟨44, "z"⟩, ⟨45, "x"⟩, ⟨46, "c"⟩, ⟨47, "v"⟩, ⟨48, "b"⟩,
  ⟨49, "n"⟩, ⟨50, "m"⟩ ]

/-- Third quarter of the C `key_names` table. -/
def key_names_c : List KeyName := [
  ⟨51, "comma"⟩, ⟨52, "dot"⟩, ⟨53, "slash"⟩,
  ⟨54, "rshift"⟩, ⟨55, "kpasterisk"⟩, ⟨56, "lalt"⟩, ⟨57, "space"⟩,
  ⟨58, "capslock"⟩,
  ⟨59, "f1"⟩, ⟨60, "f2"⟩, ⟨61, "f3"⟩, ⟨62, "f4"⟩, ⟨63, "f5"⟩,
  ⟨64, "f6"⟩, ⟨65, "f7"⟩, ⟨66, "f8"⟩, ⟨67, "f9"⟩, ⟨68, "f10"⟩,
  ⟨87, "f11"⟩, ⟨88, "f12"⟩ ]

/-- Fourth quarter of the C `key_names` table. -/
def key_names_d : List KeyName := [
  ⟨71, "kp7"⟩, ⟨72, "kp8"⟩, ⟨73, "kp9"⟩, ⟨74, "kpminus"⟩,
  ⟨75, "kp4"⟩, ⟨76, "kp5"⟩, ⟨77, "kp6"⟩, ⟨78, "kpplus"⟩,
  ⟨79, "kp1"⟩, ⟨80, "kp2"⟩, ⟨81, "kp3"⟩, ⟨82, "kp0"⟩, ⟨83, "kpdot"⟩,
  ⟨96, "kpenter"⟩, ⟨97, "rctrl"⟩, ⟨100, "ralt"⟩,
  ⟨102, "home"⟩, ⟨103, "up"⟩, ⟨104, "pageup"⟩, ⟨105, "left"⟩,
  ⟨106, "right"⟩, ⟨107, "end"⟩, ⟨108, "down"⟩, ⟨109, "pagedown"⟩,
  ⟨110, "insert"⟩, ⟨111, "delete"⟩ ]

/-- The full C `key_names` table (96 entries, source order). -/
def key_names : List KeyName :=
  key_names_a ++ key_names_b ++ key_names_c ++ key_names_d

/-- `keycode_to_name`: linear scan of the table for the first matching code;
falls back to the placeholder string when no entry matches. -/
def keycode_to_name (code : Int) : String :=
  ((key_names.find? (fun kn => kn.code == code)).map (fun kn => kn.name)).getD "?"

/-- ASCII lower-casing of one character, as `strcasecmp` does per byte. -/
def char_lower (c : Char) : Char :=
  if 65 ≤ c.toNat ∧ c.toNat ≤ 90 then Char.ofNat (c.toNat + 32) else c

/-- Case-insensitive string comparison, modelling `strcasecmp(...) == 0`. -/
def strcaseeq (a b : String) : Bool :=
  a.data.map char_lower == b.data.map char_lower

/-- `parse_keyname`: linear scan for the first case-insensitive name match;
returns `-1` for an unknown name. -/
def parse_keyname (name : String) : Int :=
  ((key_names.find? (fun kn => strcaseeq kn.name name)).map (fun kn => kn.code)).getD (-1)

/- ================================================================
   Mapping table (struct Mapping, g_map, init_mappings)
   ================================================================ -/

/-- The C `Mapping` struct: one binding slot of the 16-slot table. -/
structure Mapping where
  cli_name : String
  label : String
  keycode : Int
  default_key : Int
  btn_code : Int
  dx : Int
  dy : Int
deriving DecidableEq, Repr, Inhabited

/-- The mapping table as filled in by `init_mappings`, as a list in slot
order (indices 0-7 directions, 8-15 buttons).  Key codes and button codes
are the numeric values of the `KEY_*` / `BTN_*` macros in the source. -/
def g_map_init_list : List Mapping := [
  ⟨"--up",        "Up",         17, 17, -1,  0, -1⟩,
  ⟨"--down",      "Down",       45, 45, -1,  0,  1⟩,
  ⟨"--left",      "Left",       30, 30, -1, -1,  0⟩,
  ⟨"--right",     "Right",      32, 32, -1,  1,  0⟩,
  ⟨"--upleft",    "Up-Left",    16, 16, -1, -1, -1⟩,
  ⟨"--upright",   "Up-Right",   18, 18, -1,  1, -1⟩,
  ⟨"--downleft",  "Down-Left",  44, 44, -1, -1,  1⟩,
  ⟨"--downright", "Down-Right", 46, 46, -1,  1,  1⟩,
  ⟨"--leftfire",  "Left Fire",  57, 57, 288, 0, 0⟩,
  ⟨"--rightfire", "Right Fire", 56, 56, 289, 0, 0⟩,
  ⟨"--lefttri",   "Left Tri",   26, 26, 290, 0, 0⟩,
  ⟨"--righttri",  "Right Tri",  27, 27, 291, 0, 0⟩,
  ⟨"--menu1",     "Menu 1",      8,  8, 292, 0, 0⟩,
  ⟨"--menu2",     "Menu 2",      9,  9, 293, 0, 0⟩,
  ⟨"--menu3",     "Menu 3",     10, 10, 294, 0, 0⟩,
  ⟨"--menu4",     "Menu 4",     11, 11, 295, 0, 0⟩ ]

/-- `init_mappings` as a total lookup over slot indices. -/
def init_mappings (i : Fin 16) : Mapping :=
  g_map_init_list.getD i.val default

/-- Direction-slot index (0-7) viewed as a slot of the 16-entry table. -/
def dslot (d : Fin 8) : Fin 16 := ⟨d.val, by omega⟩

/-- Button-slot index (0-7) viewed as slot 8+b of the 16-entry table. -/
def bslot (b : Fin 8) : Fin 16 := ⟨8 + b.val, by omega⟩

/-- A mapping table reachable at runtime: all fields except the current key
code agree with the table built by `init_mappings` (only `keycode` is ever
mutated, by the CLI or the wizard). -/
def MapInvariant (m : Fin 16 → Mapping) : Prop :=
  ∀ i : Fin 16,
    (m i).cli_name = (init_mappings i).cli_name ∧
    (m i).label = (init_mappings i).label ∧
    (m i).default_key = (init_mappings i).default_key ∧
    (m i).btn_code = (init_mappings i).btn_code ∧
    (m i).dx = (init_mappings i).dx ∧
    (m i).dy = (init_mappings i).dy

instance (m : Fin 16 → Mapping) : Decidable (MapInvariant m) := by
  unfold MapInvariant; infer_instance

theorem MapInvariant.cli_name {m : Fin 16 → Mapping} (h : MapInvariant m) :
    ∀ i, (m i).cli_name = (init_mappings i).cli_name := fun i => (h i).1

theorem MapInvariant.btn_code {m : Fin 16 → Mapping} (h : MapInvariant m) :
    ∀ i, (m i).btn_code = (init_mappings i).btn_code := fun i => (h i).2.2.2.1

theorem MapInvariant.dx {m : Fin 16 → Mapping} (h : MapInvariant m) :
    ∀ i, (m i).dx = (init_mappings i).dx := fun i => (h i).2.2.2.2.1

theorem MapInvariant.dy {m : Fin 16 → Mapping} (h : MapInvariant m) :
    ∀ i, (m i).dy = (init_mappings i).dy := fun i => (h i).2.2.2.2.2

/- ================================================================
   Translation engine (normal_run inner loop)
   ================================================================ -/

/-- A Linux `struct input_event` (the fields the program reads and writes).
Used both for key transitions read from keyboards and for events emitted to
the virtual joystick. -/
structure IEvent where
  type : Int
  code : Int
  value : Int
deriving DecidableEq, Repr

/-- The engine's mutable globals: the mapping table `g_map`, the
held-direction set `g_dir_held`, and the `g_ctrl_held` / `g_suspended`
flags. -/
structure EngineState where
  map : Fin 16 → Mapping
  dir_held : Fin 8 → Bool
  ctrl_held : Bool
  suspended : Bool

/-- One step of the direction-mapping loop in `normal_run` (one slot `d`):
if the event's code matches the slot's key code and the held flag differs
from the transition, update the flag and set `axis_dirty`. -/
def dir_step (m : Fin 16 → Mapping) (code : Int) (pressed : Bool)
    (acc : (Fin 8 → Bool) × Bool) (d : Fin 8) : (Fin 8 → Bool) × Bool :=
  if code = (m (dslot d)).keycode then
    if acc.1 d ≠ pressed then (Function.update acc.1 d pressed, true)
    else acc
  else acc

/-- The direction-mapping loop of `normal_run` over all 8 direction slots,
threading the held set and the `axis_dirty` flag. -/
def dir_scan (m : Fin 16 → Mapping) (held : Fin 8 → Bool) (dirty : Bool)
    (code : Int) (pressed : Bool) : (Fin 8 → Bool) × Bool :=
  (List.finRange 8).foldl (dir_step m code pressed) (held, dirty)

/-- The button-mapping loop of `normal_run` over all 8 button slots: for
every button slot whose key code matches, emit a scan-code hint
(`MSC_SCAN`, `0x90001 + (btn_code - BTN_TRIGGER)`), the button transition,
and a sync report. -/
def button_emits (m : Fin 16 → Mapping) (code : Int) (pressed : Bool) :
    List IEvent :=
  ((List.finRange 8).map (fun b =>
    if code = (m (bslot b)).keycode then
      [⟨EV_MSC, MSC_SCAN, 589825 + ((m (bslot b)).btn_code - BTN_TRIGGER)⟩,
       ⟨EV_KEY, (m (bslot b)).btn_code, if pressed then 1 else 0⟩,
       ⟨EV_SYN, SYN_REPORT, 0⟩]
    else [])).flatten

/-- The events emitted when the engine enters the paused state (the Ctrl+S
suspend branch of `normal_run`): release all 8 buttons, center both axes,
sync. -/
def suspend_emits (m : Fin 16 → Mapping) : List IEvent :=
  ((List.finRange 8).map (fun b => ⟨EV_KEY, (m (bslot b)).btn_code, 0⟩)) ++
  [⟨EV_ABS, ABS_X, AXIS_CENTER⟩, ⟨EV_ABS, ABS_Y, AXIS_CENTER⟩,
   ⟨EV_SYN, SYN_REPORT, 0⟩]

/-- `recalc_and_emit_axes`: sum the direction vectors of all held direction
slots, clamp each component to [-1, 1], map -1/0/1 to axis value 0/127/255,
and emit both axes followed by a sync report. -/
def recalc_and_emit_axes (m : Fin 16 → Mapping) (held : Fin 8 → Bool) :
    List IEvent :=
  let sums := (List.finRange 8).foldl
    (fun (acc : Int × Int) d =>
      if held d then (acc.1 + (m (dslot d)).dx, acc.2 + (m (dslot d)).dy)
      else acc) (0, 0)
  let sx0 := if sums.1 < -1 then -1 else sums.1
  let sx := if sx0 > 1 then 1 else sx0
  let sy0 := if sums.2 < -1 then -1 else sums.2
  let sy := if sy0 > 1 then 1 else sy0
  let ax : Int := if sx < 0 then 0 else if sx > 0 then 255 else 127
  let ay : Int := if sy < 0 then 0 else if sy > 0 then 255 else 127
  [⟨EV_ABS, ABS_X, ax⟩, ⟨EV_ABS, ABS_Y, ay⟩, ⟨EV_SYN, SYN_REPORT, 0⟩]

/-- Per-event processing of the inner translation loop of `normal_run`:
returns the new engine state, the events emitted to the virtual joystick,
the updated `axis_dirty` flag and whether Ctrl+R requested a remap (the
`goto break_inner`).  Keyboard grab/ungrab and draining, which touch no
modelled state, are omitted. -/
def process_event (s : EngineState) (dirty : Bool) (ev : IEvent) :
    EngineState × List IEvent × Bool × Bool :=
  if ev.type ≠ EV_KEY then (s, [], dirty, false)
  else if ev.value = 2 then (s, [], dirty, false)
  else if ev.code = KEY_LEFTCTRL ∨ ev.code = KEY_RIGHTCTRL then
    ({ s with ctrl_held := ev.value == 1 }, [], dirty, false)
  else if ev.code = KEY_S ∧ ev.value = 1 ∧ s.ctrl_held = true then
    if s.suspended = false then
      ({ s with dir_held := fun _ => false, suspended := true },
       suspend_emits s.map, dirty, false)
    else
      ({ s with suspended := false, ctrl_held := false }, [], dirty, false)
  else if ev.code = KEY_R ∧ ev.value = 1 ∧ s.ctrl_held = true then
    ({ s with suspended := false }, [], dirty, true)
  else if s.suspended = true then (s, [], dirty, false)
  else
    ({ s with dir_held := (dir_scan s.map s.dir_held dirty ev.code (ev.value == 1)).1 },
     button_emits s.map ev.code (ev.value == 1),
     (dir_scan s.map s.dir_held dirty ev.code (ev.value == 1)).2, false)

/-- Drain one tick's queued key transitions: fold `process_event` over the
list, concatenating the emitted events, and stop early when Ctrl+R breaks
out of the inner loop. -/
def drain : EngineState → Bool → List IEvent →
    EngineState × List IEvent × Bool × Bool
  | s, dirty, [] => (s, [], dirty, false)
  | s, dirty, ev :: rest =>
    let r := process_event s dirty ev
    if r.2.2.2 then (r.1, r.2.1, r.2.2.1, true)
    else
      let r2 := drain r.1 r.2.2.1 rest
      (r2.1, r.2.1 ++ r2.2.1, r2.2.2.1, r2.2.2.2)

/-- The `axis_dirty` flag at the end of one poll iteration that drains the
given transitions starting from state `s`. -/
def tick_dirty (s : EngineState) (evs : List IEvent) : Bool :=
  (drain s false evs).2.2.1

/-- One full poll iteration of the inner loop of `normal_run`: drain all
queued transitions (with `axis_dirty` reset to false, as it is declared
inside the loop), then, unless Ctrl+R broke out, recompute and emit the
axes once if any direction flag changed.  Returns the new state, the
emitted events, and whether a remap was requested. -/
def run_tick (s : EngineState) (evs : List IEvent) :
    EngineState × List IEvent × Bool :=
  let r := drain s false evs
  if r.2.2.2 then (r.1, r.2.1, true)
  else if r.2.2.1 then
    (r.1, r.2.1 ++ recalc_and_emit_axes r.1.map r.1.dir_held, false)
  else (r.1, r.2.1, false)

/- ================================================================
   Branch characterizations of per-event processing
   ================================================================ -/

/-- `List.finRange 8` as a literal list (used to unfold the 8-slot loops). -/
theorem finRange8_eq :
    (List.finRange 8) = ([0, 1, 2, 3, 4, 5, 6, 7] : List (Fin 8)) := by decide

/-- A key transition that is no modifier, no chord, and arrives while not
suspended reaches the direction- and button-mapping loops. -/
theorem process_event_plain (s : EngineState) (dirty : Bool) (ev : IEvent)
    (ht : ev.type = EV_KEY) (hv2 : ev.value ≠ 2)
    (hc1 : ev.code ≠ KEY_LEFTCTRL) (hc2 : ev.code ≠ KEY_RIGHTCTRL)
    (hcs : ¬(ev.code = KEY_S ∧ ev.value = 1 ∧ s.ctrl_held = true))
    (hcr : ¬(ev.code = KEY_R ∧ ev.value = 1 ∧ s.ctrl_held = true))
    (hsusp : s.suspended = false) :
    process_event s dirty ev =
      ({ s with dir_held := (dir_scan s.map s.dir_held dirty ev.code (ev.value == 1)).1 },
       button_emits s.map ev.code (ev.value == 1),
       (dir_scan s.map s.dir_held dirty ev.code (ev.value == 1)).2, false) := by
  unfold process_event
  rw [if_neg (by simp [ht]), if_neg hv2,
    if_neg (by rintro (h | h) <;> [exact hc1 h; exact hc2 h]),
    if_neg hcs, if_neg hcr, if_neg (by simp [hsusp])]

/-- Under the runtime table invariant, the suspend branch's emissions are
the eight concrete button releases, the two axis centerings, and a sync. -/
theorem suspend_emits_concrete (m : Fin 16 → Mapping) (hm : MapInvariant m) :
    suspend_emits m =
      [⟨EV_KEY, 288, 0⟩, ⟨EV_KEY, 289, 0⟩, ⟨EV_KEY, 290, 0⟩, ⟨EV_KEY, 291, 0⟩,
       ⟨EV_KEY, 292, 0⟩, ⟨EV_KEY, 293, 0⟩, ⟨EV_KEY, 294, 0⟩, ⟨EV_KEY, 295, 0⟩,
       ⟨EV_ABS, ABS_X, AXIS_CENTER⟩, ⟨EV_ABS, ABS_Y, AXIS_CENTER⟩,
       ⟨EV_SYN, SYN_REPORT, 0⟩] := by
  simp only [suspend_emits, finRange8_eq, List.map_cons, List.map_nil,
    hm.btn_code]
  decide

/- ================================================================
   Spec-side formulations (written from the specification text, for
   comparison with the definitions translated from the source)
   ================================================================ -/

/-- Spec-side clamp of a direction sum to [-1, 1]. -/
def spec_clamp (s : Int) : Int := max (-1) (min 1 s)

/-- Spec-side axis value: 0 if the clamped sum is negative, 255 if
positive, 127 if zero. -/
def spec_axis_value (s : Int) : Int :=
  if spec_clamp s < 0 then 0 else if 0 < spec_clamp s then 255 else 127

/-- Spec-side sum of `dx` over the set of held direction slots. -/
def spec_dir_sum_x (held : Fin 8 → Bool) : Int :=
  Finset.sum (Finset.filter (fun d => held d = true) Finset.univ)
    (fun d => (init_mappings (dslot d)).dx)

/-- Spec-side sum of `dy` over the set of held direction slots. -/
def spec_dir_sum_y (held : Fin 8 → Bool) : Int :=
  Finset.sum (Finset.filter (fun d => held d = true) Finset.univ)
    (fun d => (init_mappings (dslot d)).dy)

/-- The axis recomputation reads only the fixed direction vectors, so on
any runtime-reachable table it agrees with the initial table. -/
theorem recalc_congr (m : Fin 16 → Mapping) (hm : MapInvariant m)
    (held : Fin 8 → Bool) :
    recalc_and_emit_axes m held = recalc_and_emit_axes init_mappings held := by
  have e : (List.finRange 8) = ([0, 1, 2, 3, 4, 5, 6, 7] : List (Fin 8)) := by
    decide
  simp only [recalc_and_emit_axes, e, List.foldl_cons, List.foldl_nil,
    hm.dx, hm.dy]

set_option maxRecDepth 40000 in
/-- C1: for every subset of held direction slots, the axis recomputation
emits X = 0/255/127 according to the sign of the clamped sum of the held
slots' dx (and likewise Y via dy), and the result depends only on the set
of held slots, not on the order in which their keys were pressed. -/
theorem recalc_axes_spec : ∀ (m : Fin 16 → Mapping), MapInvariant m →
    (∀ held : Fin 8 → Bool,
      recalc_and_emit_axes m held =
        [⟨EV_ABS, ABS_X, spec_axis_value (spec_dir_sum_x held)⟩,
         ⟨EV_ABS, ABS_Y, spec_axis_value (spec_dir_sum_y held)⟩,
         ⟨EV_SYN, SYN_REPORT, 0⟩]) ∧
    (∀ l₁ l₂ : List (Fin 8), l₁.Perm l₂ →
      recalc_and_emit_axes m (fun d => l₁.contains d) =
        recalc_and_emit_axes m (fun d => l₂.contains d)) := by
  intro m hm
  refine ⟨fun held => ?_, fun l₁ l₂ hperm => ?_⟩
  · rw [recalc_congr m hm]
    revert held
    decide
  · have e : (fun d => l₁.contains d) = (fun d => l₂.contains d) := by
      funext d
      simp only [List.contains, List.elem_eq_mem, decide_eq_decide]
      exact hperm.mem_iff
    rw [e]

/-- Witness for C1 at the initial table with all eight slots held: the
vector sums cancel to (0, 0), so both axes are centred. -/
theorem recalc_axes_spec_witness :
    MapInvariant init_mappings ∧
    recalc_and_emit_axes init_mappings (fun _ => true) =
      [⟨EV_ABS, ABS_X, spec_axis_value (spec_dir_sum_x (fun _ => true))⟩,
       ⟨EV_ABS, ABS_Y, spec_axis_value (spec_dir_sum_y (fun _ => true))⟩,
       ⟨EV_SYN, SYN_REPORT, 0⟩] :=
  ⟨by decide, (recalc_axes_spec init_mappings (by decide)).1 (fun _ => true)⟩

/-- C7 counterexample: with the default table, a press of the left-alt
modifier key does not merely update a modifier flag — it is matched against
button slot 9 ("Right Fire", whose default key code is left alt) and emits
a full button report, so modifier keys other than ctrl are mapped. -/
theorem alt_modifier_mapped_counterexample :
    (process_event ⟨init_mappings, fun _ => false, false, false⟩ false
        ⟨EV_KEY, KEY_LEFTALT, 1⟩).2.1 =
      [⟨EV_MSC, MSC_SCAN, 589826⟩, ⟨EV_KEY, 289, 1⟩,
       ⟨EV_SYN, SYN_REPORT, 0⟩] ∧
    (process_event ⟨init_mappings, fun _ => false, false, false⟩ false
        ⟨EV_KEY, KEY_LEFTALT, 1⟩).1.ctrl_held = false := by
  constructor <;> decide

/-- C7 (amended to the control keys, the only modifiers the engine treats
specially): a left/right-ctrl transition only updates the held-control
flag; it is never matched against the mapping slots, produces no
direction-flag update and no button report. -/
theorem ctrl_modifier_only :
    ∀ (s : EngineState) (dirty : Bool) (ev : IEvent),
      ev.type = EV_KEY → ev.value ≠ 2 →
      (ev.code = KEY_LEFTCTRL ∨ ev.code = KEY_RIGHTCTRL) →
      process_event s dirty ev =
        ({ s with ctrl_held := ev.value == 1 }, [], dirty, false) := by
  intro s dirty ev ht hv2 hc
  unfold process_event
  rw [if_neg (by simp [ht]), if_neg hv2, if_pos hc]

/-- Witness for C7: a right-ctrl release in a running state updates only
the modifier flag and emits nothing. -/
theorem ctrl_modifier_only_witness :
    process_event ⟨init_mappings, fun _ => false, true, false⟩ false
        ⟨EV_KEY, KEY_RIGHTCTRL, 0⟩ =
      ({ map := init_mappings, dir_held := fun _ => false, ctrl_held := false,
         suspended := false }, [], false, false) :=
  ctrl_modifier_only ⟨init_mappings, fun _ => false, true, false⟩ false
    ⟨EV_KEY, KEY_RIGHTCTRL, 0⟩ (by decide) (by decide) (by decide)

/-- C4: a press of the pause chord (ctrl held plus the pause key S) while
active releases all 8 buttons, centers both axes, flushes, clears all held
directions and enters the paused state; while paused no transition emits
any joystick event, the paused state persists under non-chord transitions,
and the same chord leaves the paused state again. -/
theorem pause_chord_behaviour :
    ∀ (s : EngineState) (dirty : Bool), MapInvariant s.map →
      s.suspended = false → s.ctrl_held = true →
      (process_event s dirty ⟨EV_KEY, KEY_S, 1⟩ =
        ({ s with dir_held := fun _ => false, suspended := true },
         [⟨EV_KEY, 288, 0⟩, ⟨EV_KEY, 289, 0⟩, ⟨EV_KEY, 290, 0⟩, ⟨EV_KEY, 291, 0⟩,
          ⟨EV_KEY, 292, 0⟩, ⟨EV_KEY, 293, 0⟩, ⟨EV_KEY, 294, 0⟩, ⟨EV_KEY, 295, 0⟩,
          ⟨EV_ABS, ABS_X, AXIS_CENTER⟩, ⟨EV_ABS, ABS_Y, AXIS_CENTER⟩,
          ⟨EV_SYN, SYN_REPORT, 0⟩], dirty, false)) ∧
      (∀ (t : EngineState) (d : Bool) (ev : IEvent), t.suspended = true →
        (process_event t d ev).2.1 = []) ∧
      (∀ (t : EngineState) (d : Bool) (ev : IEvent), t.suspended = true →
        ¬(ev.code = KEY_S ∧ ev.value = 1 ∧ t.ctrl_held = true) →
        ¬(ev.code = KEY_R ∧ ev.value = 1 ∧ t.ctrl_held = true) →
        (process_event t d ev).1.suspended = true ∧
        (process_event t d ev).1.dir_held = t.dir_held) ∧
      (∀ (t : EngineState) (d : Bool), t.suspended = true →
        t.ctrl_held = true →
        (process_event t d ⟨EV_KEY, KEY_S, 1⟩).1.suspended = false) := by
  intro s dirty hm hsusp hctrl
  refine ⟨?_, ?_, ?_, ?_⟩
  · unfold process_event
    rw [if_neg (by simp [EV_KEY]), if_neg (by simp),
      if_neg (by simp [KEY_S, KEY_LEFTCTRL, KEY_RIGHTCTRL]),
      if_pos (by simp [hctrl]), if_pos hsusp, suspend_emits_concrete s.map hm]
  · intro t d ev hts
    unfold process_event
    split_ifs <;> simp_all
  · intro t d ev hts hns hnr
    unfold process_event
    split_ifs <;> simp_all
  · intro t d hts htc
    unfold process_event
    split_ifs <;> simp_all [KEY_S, KEY_LEFTCTRL, KEY_RIGHTCTRL, EV_KEY]

/-- Witness for C4 at a concrete active state with ctrl held and a
direction held: the chord press pauses the engine. -/
theorem pause_chord_behaviour_witness :
    MapInvariant init_mappings ∧
    (process_event ⟨init_mappings, fun d => d = 0, true, false⟩ false
        ⟨EV_KEY, KEY_S, 1⟩).1.suspended = true :=
  ⟨by decide, by
    rw [((pause_chord_behaviour ⟨init_mappings, fun d => d = 0, true, false⟩
        false (by decide) rfl rfl).1 : process_event _ _ _ = _)]⟩

/- ================================================================
   Button transitions (C2)
   ================================================================ -/

/-- Decompose the flattened output of a per-element loop around the block
produced by one given element. -/
theorem flatten_map_decomp {α β : Type} (f : α → List β) :
    ∀ (l : List α) (a : α), a ∈ l →
      ∃ l₁ l₂, (l.map f).flatten = l₁ ++ (f a ++ l₂) := by
  intro l
  induction l with
  | nil => intro a ha; cases ha
  | cons x xs ih =>
    intro a ha
    rcases List.mem_cons.mp ha with h | h
    · exact ⟨[], (xs.map f).flatten, by simp [h]⟩
    · obtain ⟨l₁, l₂, hd⟩ := ih a h
      exact ⟨f x ++ l₁, l₂, by simp [hd]⟩

/-- The concrete button codes of the initial table: slot 8+i drives
joystick button 288+i. -/
theorem init_btn_codes :
    ∀ i : Fin 8, (init_mappings (bslot i)).btn_code = 288 + (i.val : Int) := by
  decide

/-- The button loop emits exactly one button report carrying the matched
slot's button code (button codes are pairwise distinct under the table
invariant, so no other slot can contribute the same code). -/
theorem button_emits_count (m : Fin 16 → Mapping) (hm : MapInvariant m)
    (c : Int) (p : Bool) (b : Fin 8) (hc : c = (m (bslot b)).keycode) :
    (button_emits m c p).countP
      (fun e => e.type == EV_KEY && e.code == (m (bslot b)).btn_code) = 1 := by
  subst hc
  fin_cases b <;>
    simp +decide [button_emits, finRange8_eq, hm.btn_code, init_btn_codes,
      List.countP_cons, apply_ite (List.countP _), EV_KEY, EV_MSC, EV_SYN]

/-- C2 (amended): a non-modifier, non-chord key transition drained by the
active engine whose key code matches a button slot makes the engine emit
exactly one button report for that slot's button code, immediately
preceded by a scan-code hint and immediately followed by one sync flush,
whatever direction slots the same transition may also touch. -/
theorem button_transition_single_report :
    ∀ (s : EngineState) (dirty : Bool) (ev : IEvent) (b : Fin 8),
      MapInvariant s.map → s.suspended = false →
      ev.type = EV_KEY → (ev.value = 0 ∨ ev.value = 1) →
      ev.code = (s.map (bslot b)).keycode →
      ev.code ≠ KEY_LEFTCTRL → ev.code ≠ KEY_RIGHTCTRL →
      ¬(ev.code = KEY_S ∧ ev.value = 1 ∧ s.ctrl_held = true) →
      ¬(ev.code = KEY_R ∧ ev.value = 1 ∧ s.ctrl_held = true) →
      (∃ l₁ l₂,
        (process_event s dirty ev).2.1 =
          l₁ ++ ([⟨EV_MSC, MSC_SCAN,
                    589825 + ((s.map (bslot b)).btn_code - BTN_TRIGGER)⟩,
                  ⟨EV_KEY, (s.map (bslot b)).btn_code,
                    if ev.value == 1 then 1 else 0⟩,
                  ⟨EV_SYN, SYN_REPORT, 0⟩] ++ l₂)) ∧
      (process_event s dirty ev).2.1.countP
        (fun e => e.type == EV_KEY && e.code == (s.map (bslot b)).btn_code)
        = 1 := by
  intro s dirty ev b hm hsusp ht hv hkc hc1 hc2 hcs hcr
  have hv2 : ev.value ≠ 2 := by rcases hv with h | h <;> omega
  rw [process_event_plain s dirty ev ht hv2 hc1 hc2 hcs hcr hsusp]
  refine ⟨?_, button_emits_count s.map hm ev.code (ev.value == 1) b hkc⟩
  obtain ⟨l₁, l₂, hd⟩ := flatten_map_decomp
    (fun bb =>
      if ev.code = (s.map (bslot bb)).keycode then
        ([⟨EV_MSC, MSC_SCAN, 589825 + ((s.map (bslot bb)).btn_code - BTN_TRIGGER)⟩,
          ⟨EV_KEY, (s.map (bslot bb)).btn_code, if (ev.value == 1) then 1 else 0⟩,
          ⟨EV_SYN, SYN_REPORT, 0⟩] : List IEvent)
      else []) (List.finRange 8) b (List.mem_finRange b)
  refine ⟨l₁, l₂, ?_⟩
  show button_emits s.map ev.code (ev.value == 1) = _
  rw [button_emits, hd, if_pos hkc]

/-- C2 counterexample: bind the left-fire button slot to the left-ctrl key
(the valid CLI override "--leftfire lctrl"); a press of that key matches
the button slot but is consumed by the modifier tracking and emits no
button report and no flush at all. -/
theorem button_transition_counterexample :
    ((fun i : Fin 16 =>
        if i.val = 8 then { init_mappings i with keycode := 29 }
        else init_mappings i) (bslot 0)).keycode = KEY_LEFTCTRL ∧
    (process_event
        ⟨(fun i : Fin 16 =>
            if i.val = 8 then { init_mappings i with keycode := 29 }
            else init_mappings i),
          fun _ => false, false, false⟩ false
        ⟨EV_KEY, KEY_LEFTCTRL, 1⟩).2.1 = [] := by
  constructor <;> decide

/-- Witness for C2: the default left-fire key (space) emits exactly one
report for button 288. -/
theorem button_transition_single_report_witness :
    MapInvariant init_mappings ∧
    (process_event ⟨init_mappings, fun _ => false, false, false⟩ false
        ⟨EV_KEY, 57, 1⟩).2.1.countP
      (fun e => e.type == EV_KEY &&
        e.code == (init_mappings (bslot 0)).btn_code) = 1 :=
  ⟨by decide,
    (button_transition_single_report
      ⟨init_mappings, fun _ => false, false, false⟩ false ⟨EV_KEY, 57, 1⟩ 0
      (by decide) rfl rfl (Or.inr rfl) (by decide) (by decide) (by decide)
      (by decide) (by decide)).2⟩

/- ================================================================
   Per-tick axis batching (C3)
   ================================================================ -/

/-- The button loop never emits an absolute-axis event. -/
theorem button_emits_no_abs (m : Fin 16 → Mapping) (c : Int) (p : Bool) :
    ∀ e ∈ button_emits m c p, e.type ≠ EV_ABS := by
  intro e he
  simp only [button_emits, List.mem_flatten, List.mem_map] at he
  obtain ⟨l, ⟨bb, _, rfl⟩, hel⟩ := he
  by_cases h : c = (m (bslot bb)).keycode
  · rw [if_pos h] at hel
    simp only [List.mem_cons, List.not_mem_nil, or_false] at hel
    rcases hel with rfl | rfl | rfl <;> simp [EV_MSC, EV_KEY, EV_SYN, EV_ABS]
  · rw [if_neg h] at hel
    cases hel

/-- Draining a tick whose transitions carry none of the modifier / chord
key codes keeps the engine active, requests no remap, and emits no
absolute-axis event. -/
theorem drain_chord_free :
    ∀ (evs : List IEvent) (s : EngineState) (dirty : Bool),
      s.suspended = false →
      (∀ ev ∈ evs, ev.code ≠ KEY_LEFTCTRL ∧ ev.code ≠ KEY_RIGHTCTRL ∧
        ev.code ≠ KEY_S ∧ ev.code ≠ KEY_R) →
      (drain s dirty evs).1.suspended = false ∧
      (drain s dirty evs).2.2.2 = false ∧
      ∀ e ∈ (drain s dirty evs).2.1, e.type ≠ EV_ABS := by
  intro evs
  induction evs with
  | nil =>
    intro s dirty hs _
    exact ⟨hs, rfl, by simp [drain]⟩
  | cons ev rest ih =>
    intro s dirty hs hc
    obtain ⟨h1, h2, h3, h4⟩ := hc ev (List.mem_cons_self ev rest)
    have hpe : (process_event s dirty ev).1.suspended = false ∧
        (process_event s dirty ev).2.2.2 = false ∧
        ∀ e ∈ (process_event s dirty ev).2.1, e.type ≠ EV_ABS := by
      unfold process_event
      split_ifs with g1 g2 g3 g4 g5 g6
      · exact ⟨hs, rfl, by simp⟩
      · exact ⟨hs, rfl, by simp⟩
      · rcases g3 with g | g <;> [exact absurd g h1; exact absurd g h2]
      · exact absurd g4.1 h3
      · exact absurd g5.1 h4
      · exact absurd g6 (by simp [hs])
      · exact ⟨hs, rfl, button_emits_no_abs s.map ev.code (ev.value == 1)⟩
    have hrest := ih (process_event s dirty ev).1
      (process_event s dirty ev).2.2.1 hpe.1
      (fun e he => hc e (List.mem_cons_of_mem ev he))
    simp only [drain, hpe.2.1, if_false, Bool.false_eq_true]
    refine ⟨hrest.1, hrest.2.1, ?_⟩
    intro e he
    rcases List.mem_append.mp he with h | h
    · exact hpe.2.2 e h
    · exact hrest.2.2 e h

/-- C3 (amended to poll iterations that process no modifier/chord key):
in a chord-free tick of the active engine, exactly one axis report (both
axes plus one flush, appended after all per-transition emissions) is
emitted when some direction flag changed during the tick, and none is
emitted otherwise. -/
theorem tick_single_axis_report :
    ∀ (s : EngineState) (evs : List IEvent),
      s.suspended = false →
      (∀ ev ∈ evs, ev.code ≠ KEY_LEFTCTRL ∧ ev.code ≠ KEY_RIGHTCTRL ∧
        ev.code ≠ KEY_S ∧ ev.code ≠ KEY_R) →
      ((run_tick s evs).2.1.countP
          (fun e => e.type == EV_ABS && e.code == ABS_X) =
        if tick_dirty s evs then 1 else 0) ∧
      (∃ pre, (run_tick s evs).2.1 =
          pre ++ (if tick_dirty s evs then
              recalc_and_emit_axes (run_tick s evs).1.map
                (run_tick s evs).1.dir_held
            else []) ∧
        ∀ e ∈ pre, e.type ≠ EV_ABS) := by
  intro s evs hs hc
  obtain ⟨hsusp, hremap, habs⟩ := drain_chord_free evs s false hs hc
  have hout0 : (drain s false evs).2.1.countP
      (fun e => e.type == EV_ABS && e.code == ABS_X) = 0 := by
    rw [List.countP_eq_zero]
    intro e he
    simp only [Bool.and_eq_true, beq_iff_eq, not_and]
    intro h
    exact absurd h (habs e he)
  simp only [run_tick, tick_dirty, hremap, Bool.false_eq_true, if_false]
  by_cases hd : (drain s false evs).2.2.1 = true
  · simp only [hd, eq_self_iff_true, if_true]
    constructor
    · rw [List.countP_append, hout0]
      simp [recalc_and_emit_axes, EV_ABS, EV_SYN, ABS_X, ABS_Y]
    · exact ⟨(drain s false evs).2.1, rfl, habs⟩
  · rw [Bool.not_eq_true] at hd
    simp only [hd, Bool.false_eq_true, if_false, List.append_nil]
    exact ⟨hout0, (drain s false evs).2.1, by simp, habs⟩

/-- C3 counterexample: a tick that presses the default "up" key and then
the pause chord changes a direction flag but emits two axis reports (the
suspend branch centers the axes, and the end-of-tick recomputation emits
again), not exactly one. -/
theorem tick_axis_report_counterexample :
    tick_dirty ⟨init_mappings, fun _ => false, false, false⟩
        [⟨EV_KEY, 17, 1⟩, ⟨EV_KEY, 29, 1⟩, ⟨EV_KEY, 31, 1⟩] = true ∧
    (run_tick ⟨init_mappings, fun _ => false, false, false⟩
        [⟨EV_KEY, 17, 1⟩, ⟨EV_KEY, 29, 1⟩, ⟨EV_KEY, 31, 1⟩]).2.1.countP
      (fun e => e.type == EV_ABS && e.code == ABS_X) = 2 := by
  constructor <;> decide

/-- Witness for C3: a tick pressing only the default "up" key emits
exactly one axis report. -/
theorem tick_single_axis_report_witness :
    (∀ ev ∈ ([⟨EV_KEY, 17, 1⟩] : List IEvent),
      ev.code ≠ KEY_LEFTCTRL ∧ ev.code ≠ KEY_RIGHTCTRL ∧
      ev.code ≠ KEY_S ∧ ev.code ≠ KEY_R) ∧
    (run_tick ⟨init_mappings, fun _ => false, false, false⟩
        [⟨EV_KEY, 17, 1⟩]).2.1.countP
      (fun e => e.type == EV_ABS && e.code == ABS_X) =
      if tick_dirty ⟨init_mappings, fun _ => false, false, false⟩
          [⟨EV_KEY, 17, 1⟩] then 1 else 0 :=
  ⟨by decide,
    (tick_single_axis_report ⟨init_mappings, fun _ => false, false, false⟩
      [⟨EV_KEY, 17, 1⟩] rfl (by decide)).1⟩

/- ================================================================
   Remap wizard review state and the caller's snapshot restore (C5)
   ================================================================ -/

/-- The wizard state fields driving the REVIEW screen's key handling in
`guimap_run` (`GUIMAP_MAP` = 0, `GUIMAP_REVIEW` = 1, `GUIMAP_BROWSE` = 2;
review rows 0-15 are the mapping slots, 16 Apply, 17 Quit, 18 Save). -/
structure GuimapState where
  state : Int
  cur_map : Int
  redo_single : Int
  review_sel : Int
  applied : Bool
deriving DecidableEq, Repr

/-- One REVIEW-state iteration of the `guimap_run` loop on a drained key
press (plus the joystick navigation inputs): returns the new state and
whether the loop exits (the `break` statements).  Entering BROWSE also
reloads the directory listing, a filesystem effect outside the model. -/
def guimap_review_step (g : GuimapState) (key : Int) (jdy : Int)
    (jconfirm : Bool) : GuimapState × Bool :=
  if key = KEY_UP ∨ jdy < 0 then
    ({ g with review_sel :=
        if g.review_sel - 1 < 0 then 0 else g.review_sel - 1 }, false)
  else if key = KEY_DOWN ∨ jdy > 0 then
    ({ g with review_sel :=
        if g.review_sel + 1 ≥ 19 then 18 else g.review_sel + 1 }, false)
  else if key = KEY_1 then
    (if 0 ≤ g.review_sel ∧ g.review_sel < 16 then
      { g with redo_single := g.review_sel, cur_map := g.review_sel,
               state := 0 }
     else g, false)
  else if key = KEY_A then ({ g with applied := true }, true)
  else if key = KEY_Q ∨ key = KEY_ESC then (g, true)
  else if key = KEY_S then ({ g with state := 2 }, false)
  else if key = KEY_ENTER ∨ key = KEY_SPACE ∨ jconfirm = true then
    if 0 ≤ g.review_sel ∧ g.review_sel < 16 then
      ({ g with redo_single := g.review_sel, cur_map := g.review_sel,
                state := 0 }, false)
    else if g.review_sel = 16 then ({ g with applied := true }, true)
    else if g.review_sel = 17 then (g, true)
    else if g.review_sel = 18 then ({ g with state := 2 }, false)
    else (g, false)
  else (g, false)

/-- `guimap_run`'s return value: 0 on Apply, 1 otherwise
(`return gapp.applied ? 0 : 1`). -/
def guimap_result_code (applied : Bool) : Int :=
  if applied then 0 else 1

/-- The caller side in `normal_run`: a snapshot `orig` of `g_map` is taken
before `guimap_run`; if the wizard's result code is non-zero the snapshot
is copied back, otherwise the wizard's table stands. -/
def remap_session_map (orig cur : Fin 16 → Mapping) (code : Int) :
    Fin 16 → Mapping :=
  if code ≠ 0 then orig else cur

/-- C5: selecting Quit on the review screen exits the wizard without
setting the applied flag, the wizard then reports failure, and the caller
restores the snapshot, so every slot's key code after the session equals
its value before the session, regardless of the table the wizard left
behind. -/
theorem quit_without_apply_restores :
    ∀ (g : GuimapState) (key : Int), g.applied = false →
      (key = KEY_Q ∨ key = KEY_ESC) →
      ((guimap_review_step g key 0 false).2 = true ∧
       (guimap_review_step g key 0 false).1.applied = false) ∧
      ∀ (orig cur : Fin 16 → Mapping),
        remap_session_map orig cur (guimap_result_code false) = orig ∧
        ∀ i : Fin 16,
          (remap_session_map orig cur (guimap_result_code false) i).keycode =
            (orig i).keycode := by
  intro g key hap hk
  constructor
  · rcases hk with rfl | rfl <;>
      simp [guimap_review_step, hap, KEY_UP, KEY_DOWN, KEY_1, KEY_A,
        KEY_Q, KEY_ESC]
  · intro orig cur
    refine ⟨?_, fun i => ?_⟩ <;> simp [remap_session_map, guimap_result_code]

/-- Witness for C5: quitting from the review screen at selection 17
restores a table whose key codes were all overwritten by the wizard. -/
theorem quit_without_apply_restores_witness :
    ((guimap_review_step ⟨1, 0, -1, 17, false⟩ 16 0 false).2 = true ∧
     (guimap_review_step ⟨1, 0, -1, 17, false⟩ 16 0 false).1.applied = false) ∧
    remap_session_map init_mappings
        (fun i => { init_mappings i with keycode := 99 })
        (guimap_result_code false) = init_mappings :=
  ⟨(quit_without_apply_restores ⟨1, 0, -1, 17, false⟩ 16 rfl (Or.inl rfl)).1,
   ((quit_without_apply_restores ⟨1, 0, -1, 17, false⟩ 16 rfl (Or.inl rfl)).2
     init_mappings (fun i => { init_mappings i with keycode := 99 })).1⟩

/- ================================================================
   Command-line parsing (C6)
   ================================================================ -/

/-- The slot-search loop of `parse_args`: index of the first slot whose
CLI flag name equals the argument. -/
def find_slot (m : Fin 16 → Mapping) (a : String) : Option (Fin 16) :=
  (List.finRange 16).find? (fun i => a == (m i).cli_name)

/-- `parse_args` over the argument list (after `argv[0]`): `--help`/`-h`
and `--guimap` set their flags; a slot flag consumes the following key
name and overwrites only that slot's current key code; anything else, a
missing key name, or an unknown key name is an error (`none`). -/
def parse_args : List String → (Fin 16 → Mapping) → Bool → Bool →
    Option ((Fin 16 → Mapping) × Bool × Bool)
  | [], m, h, g => some (m, h, g)
  | a :: rest, m, h, g =>
    if a = "--help" ∨ a = "-h" then parse_args rest m true g
    else if a = "--guimap" then parse_args rest m h true
    else
      match find_slot m a with
      | some slot =>
        match rest with
        | [] => none
        | k :: rest2 =>
          if parse_keyname k < 0 then none
          else parse_args rest2
            (Function.update m slot { m slot with keycode := parse_keyname k })
            h g
      | none => none

/-- The 16 CLI flag names are pairwise distinct, so searching for a slot's
own flag finds exactly that slot. -/
theorem init_cli_find :
    ∀ s : Fin 16, (List.finRange 16).find?
      (fun i => (init_mappings s).cli_name == (init_mappings i).cli_name) =
      some s := by decide

/-- No slot flag collides with the `--help`/`-h`/`--guimap` options. -/
theorem init_cli_not_option :
    ∀ s : Fin 16,
      ¬((init_mappings s).cli_name = "--help" ∨
        (init_mappings s).cli_name = "-h") ∧
      (init_mappings s).cli_name ≠ "--guimap" := by decide

/-- C6: a valid command-line override of one slot changes only that slot's
current key code; every other field of that slot, and every field of every
other slot, is unchanged. -/
theorem cli_override_single_slot :
    ∀ (m : Fin 16 → Mapping), MapInvariant m →
    ∀ (sIdx : Fin 16) (keyname : String) (h g : Bool),
      0 ≤ parse_keyname keyname →
      ∃ m', parse_args [(init_mappings sIdx).cli_name, keyname] m h g =
              some (m', h, g) ∧
        (m' sIdx).keycode = parse_keyname keyname ∧
        (∀ i : Fin 16,
          (m' i).cli_name = (m i).cli_name ∧
          (m' i).label = (m i).label ∧
          (m' i).default_key = (m i).default_key ∧
          (m' i).btn_code = (m i).btn_code ∧
          (m' i).dx = (m i).dx ∧ (m' i).dy = (m i).dy) ∧
        ∀ i : Fin 16, i ≠ sIdx → m' i = m i := by
  intro m hm sIdx keyname h g hkn
  have hfs : find_slot m ((init_mappings sIdx).cli_name) = some sIdx := by
    have e : (fun i => (init_mappings sIdx).cli_name == (m i).cli_name) =
        (fun i => (init_mappings sIdx).cli_name ==
          (init_mappings i).cli_name) := by
      funext i; rw [hm.cli_name i]
    rw [find_slot, e, init_cli_find]
  refine ⟨Function.update m sIdx
    { m sIdx with keycode := parse_keyname keyname }, ?_, ?_, ?_, ?_⟩
  · simp only [parse_args, hfs, if_neg (init_cli_not_option sIdx).1,
      if_neg (init_cli_not_option sIdx).2, if_neg (by omega : ¬parse_keyname keyname < 0)]
  · rw [Function.update_same]
  · intro i
    by_cases hi : i = sIdx
    · subst hi; rw [Function.update_same]; exact ⟨rfl, rfl, rfl, rfl, rfl, rfl⟩
    · rw [Function.update_noteq hi]; exact ⟨rfl, rfl, rfl, rfl, rfl, rfl⟩
  · intro i hi
    exact Function.update_noteq hi _ m

/-- Witness for C6: overriding the "up" slot with the arrow-up key. -/
theorem cli_override_single_slot_witness :
    MapInvariant init_mappings ∧ 0 ≤ parse_keyname "up" ∧
    ∃ m', parse_args [(init_mappings 0).cli_name, "up"] init_mappings
            false false = some (m', false, false) ∧
      (m' 0).keycode = parse_keyname "up" ∧
      (∀ i : Fin 16,
        (m' i).cli_name = (init_mappings i).cli_name ∧
        (m' i).label = (init_mappings i).label ∧
        (m' i).default_key = (init_mappings i).default_key ∧
        (m' i).btn_code = (init_mappings i).btn_code ∧
        (m' i).dx = (init_mappings i).dx ∧
        (m' i).dy = (init_mappings i).dy) ∧
      ∀ i : Fin 16, i ≠ 0 → m' i = init_mappings i :=
  ⟨by decide, by decide,
    cli_override_single_slot init_mappings (by decide) 0 "up" false false
      (by decide)⟩

/- ================================================================
   Export script (guimap_save_script) — C8, C10
   ================================================================ -/

/-- The text `guimap_save_script` writes: the shebang and `exec` header,
then one ` \`-continued line per slot pairing the slot's CLI flag name
with the key name resolved from its current key code, then a final
newline. -/
def save_script_content (m : Fin 16 → Mapping) : String :=
  ((List.finRange 16).foldl
    (fun acc i =>
      acc ++ " \\\n  " ++ (m i).cli_name ++ " " ++
        keycode_to_name (m i).keycode)
    "#!/bin/sh\nexec ./keyboard2thejoystick") ++ "\n"

/-- The permission bits `guimap_save_script` applies to the written file
(`chmod(filepath, 0755)`). -/
def save_script_mode : Nat := 0o755

/-- Spec-side: join a list of lines with newline separators. -/
def joinLines : List String → String
  | [] => ""
  | [a] => a
  | a :: b :: rest => a ++ "\n" ++ joinLines (b :: rest)

/-- Spec-side: one continuation line's payload, pairing a flag name with a
key name. -/
def contLine (flag keyname : String) : String :=
  "  " ++ flag ++ " " ++ keyname

/-- Spec-side: the lines following the shebang.  Every line that is
followed by another slot line ends in a ` \` continuation marker, and the
trailing empty string is the final newline of the file. -/
def expLines : String → List (String × String) → List String
  | h, [] => [h, ""]
  | h, p :: ps => (h ++ " \\") :: expLines (contLine p.1 p.2) ps

/-- Spec-side: the (flag name, resolved key name) pair of every slot. -/
def slot_pairs (m : Fin 16 → Mapping) : List (String × String) :=
  (List.finRange 16).map
    (fun i => ((m i).cli_name, keycode_to_name (m i).keycode))

/-- Spec-side: the full expected line list of the exported script. -/
def script_lines (m : Fin 16 → Mapping) : List String :=
  "#!/bin/sh" :: expLines "exec ./keyboard2thejoystick" (slot_pairs m)

theorem expLines_ne_nil (h : String) (ps : List (String × String)) :
    expLines h ps ≠ [] := by
  cases ps <;> simp [expLines]

theorem joinLines_cons (a : String) (l : List String) (hl : l ≠ []) :
    joinLines (a :: l) = a ++ "\n" ++ joinLines l := by
  cases l with
  | nil => exact absurd rfl hl
  | cons b r => rfl

/-- Prepending text (which may itself contain newlines) to the head line
distributes over the joined string. -/
theorem joinLines_expLines_head (x z : String)
    (ps : List (String × String)) :
    joinLines (expLines (x ++ z) ps) = x ++ joinLines (expLines z ps) := by
  cases ps with
  | nil => simp [expLines, joinLines, String.append_assoc]
  | cons p ps =>
    simp only [expLines, joinLines_cons _ _ (expLines_ne_nil _ _),
      String.append_assoc]

/-- The separator literal written before every slot option splits into a
continuation marker, a newline, and the line indentation. -/
theorem sep_split : (" \\\n  " : String) = " \\" ++ "\n" ++ "  " := by decide

/-- The header literal splits into the shebang line and the exec line. -/
theorem header_split :
    ("#!/bin/sh\nexec ./keyboard2thejoystick" : String) =
      ("#!/bin/sh" ++ "\n") ++ "exec ./keyboard2thejoystick" := by decide

/-- The append-only writing loop of `guimap_save_script` produces exactly
the newline-join of the expected line list. -/
theorem foldl_export (ps : List (String × String)) :
    ∀ acc : String,
      (ps.foldl (fun a p => a ++ " \\\n  " ++ p.1 ++ " " ++ p.2) acc) ++ "\n"
        = joinLines (expLines acc ps) := by
  induction ps with
  | nil => intro acc; simp [expLines, joinLines]
  | cons p ps ih =>
    intro acc
    rw [List.foldl_cons, ih (acc ++ " \\\n  " ++ p.1 ++ " " ++ p.2),
      show acc ++ " \\\n  " ++ p.1 ++ " " ++ p.2 =
          ((acc ++ " \\") ++ "\n") ++ contLine p.1 p.2 from by
        rw [sep_split]; simp only [contLine, String.append_assoc],
      joinLines_expLines_head,
      show expLines acc (p :: ps) =
        (acc ++ " \\") :: expLines (contLine p.1 p.2) ps from rfl,
      joinLines_cons _ _ (expLines_ne_nil _ _), String.append_assoc]

/-- `List.finRange 16` as a literal list. -/
theorem finRange16_eq :
    (List.finRange 16) =
      ([0, 1, 2, 3, 4, 5, 6, 7, 8, 9, 10, 11, 12, 13, 14, 15] :
        List (Fin 16)) := by decide

/-- The expected line list in explicit form: shebang, exec line with a
continuation marker, one line per slot (all but the last continued), and
the final empty line. -/
theorem script_lines_eq (m : Fin 16 → Mapping) :
    script_lines m =
      "#!/bin/sh" :: "exec ./keyboard2thejoystick \\" ::
        (((List.finRange 16).map (fun i =>
          contLine (m i).cli_name (keycode_to_name (m i).keycode) ++
            (if i.val < 15 then " \\" else ""))) ++ [""]) := by
  rw [script_lines, slot_pairs, finRange16_eq]
  simp +decide [expLines, List.map_cons]

/-- C8: exporting the current mapping writes a script whose text is the
newline-join of: a shebang line, a line invoking the program, exactly 16
continuation lines (the i-th pairing slot i's flag name with the key name
resolved from slot i's current key code), and a final newline; the file
mode is 0755, whose three execute bits are set. -/
theorem export_script_format :
    ∀ m : Fin 16 → Mapping,
      save_script_content m = joinLines (script_lines m) ∧
      script_lines m =
        "#!/bin/sh" :: "exec ./keyboard2thejoystick \\" ::
          (((List.finRange 16).map (fun i =>
            contLine (m i).cli_name (keycode_to_name (m i).keycode) ++
              (if i.val < 15 then " \\" else ""))) ++ [""]) ∧
      (script_lines m).length = 19 ∧
      save_script_mode = 493 ∧ save_script_mode &&& 73 = 73 := by
  intro m
  refine ⟨?_, script_lines_eq m, ?_, rfl, rfl⟩
  · have h1 := foldl_export (slot_pairs m)
      "#!/bin/sh\nexec ./keyboard2thejoystick"
    rw [slot_pairs, List.foldl_map] at h1
    rw [save_script_content, h1, script_lines, header_split,
      joinLines_expLines_head,
      joinLines_cons _ _ (expLines_ne_nil _ _), slot_pairs,
      String.append_assoc]
  · rw [script_lines_eq m, finRange16_eq]
    simp

/-- C10: key-code-to-name resolution is total — any code outside the
table resolves to the placeholder "?"; the placeholder is rejected by the
key-name parser; consequently the exported script line of a slot holding
such a code pairs the flag name with "?". -/
theorem keycode_name_total :
    (∀ code : Int, (∀ kn ∈ key_names, kn.code ≠ code) →
      keycode_to_name code = "?") ∧
    parse_keyname "?" = -1 ∧
    (∀ (m : Fin 16 → Mapping) (i : Fin 16),
      (∀ kn ∈ key_names, kn.code ≠ (m i).keycode) →
      ∃ li ∈ script_lines m,
        li = contLine (m i).cli_name "?" ++
          (if i.val < 15 then " \\" else "")) := by
  have hname : ∀ code : Int, (∀ kn ∈ key_names, kn.code ≠ code) →
      keycode_to_name code = "?" := by
    intro code h
    rw [keycode_to_name, List.find?_eq_none.mpr]
    · rfl
    · intro kn hkn
      simp only [beq_iff_eq]
      exact h kn hkn
  refine ⟨hname, by decide, ?_⟩
  intro m i h
  refine ⟨contLine (m i).cli_name "?" ++ (if i.val < 15 then " \\" else ""),
    ?_, rfl⟩
  rw [script_lines_eq m]
  refine List.mem_cons_of_mem _ (List.mem_cons_of_mem _
    (List.mem_append_left _ ?_))
  rw [← hname (m i).keycode h]
  exact List.mem_map_of_mem _ (List.mem_finRange i)

/-- Witness for C10: key code 999 is outside the table and resolves to
the placeholder. -/
theorem keycode_name_total_witness :
    (∀ kn ∈ key_names, kn.code ≠ (999 : Int)) ∧
    keycode_to_name 999 = "?" :=
  ⟨by decide, keycode_name_total.1 999 (by decide)⟩

/- ================================================================
   Render surface: drawing primitives (C9)
   ================================================================ -/

/-- The framebuffer's back buffer and geometry (`struct Framebuffer`):
`backbuf` maps a pixel index to its colour value; all drawing writes go
through `draw_pixel`. -/
structure Framebuffer where
  width : Int
  height : Int
  stride_px : Int
  backbuf : Int → Int

/-- `draw_pixel`: writes `backbuf[y * stride_px + x]` only when
`0 ≤ x < width` and `0 ≤ y < height`; otherwise a silent no-op. -/
def draw_pixel (fb : Framebuffer) (x y : Int) (c : Int) : Framebuffer :=
  if 0 ≤ x ∧ x < fb.width ∧ 0 ≤ y ∧ y < fb.height then
    { fb with backbuf := Function.update fb.backbuf (y * fb.stride_px + x) c }
  else fb

/-- `draw_rect`: row-major loop of `draw_pixel` writes over the `w × h`
rectangle at `(x, y)` (no iterations when `w` or `h` is not positive). -/
def draw_rect (fb : Framebuffer) (x y w h : Int) (c : Int) : Framebuffer :=
  (List.range h.toNat).foldl (fun acc row =>
    (List.range w.toNat).foldl (fun acc2 col =>
      draw_pixel acc2 (x + (col : Int)) (y + (row : Int)) c) acc) fb

/-- The inner `while (dx*dx + dy*dy <= r*r) dx++` scan of `draw_circle` /
`draw_rounded_rect`, with enough fuel for every reachable input (the loop
stops at `dx ≤ r + 1` whenever `|dy| ≤ r`). -/
def circHalfAux (r2 dy2 : Int) : Nat → Int → Int
  | 0, dx => dx
  | fuel + 1, dx =>
    if dx * dx + dy2 ≤ r2 then circHalfAux r2 dy2 fuel (dx + 1) else dx

/-- The half-width of the circle scanline at vertical offset `dy`. -/
def circHalf (r dy : Int) : Int :=
  circHalfAux (r * r) (dy * dy) (r.toNat + 2) 0

/-- `draw_circle`: per-scanline half-width via the integer distance test,
one 1-pixel-high rectangle per scanline. -/
def draw_circle (fb : Framebuffer) (cx cy r : Int) (c : Int) : Framebuffer :=
  (List.range (2 * r + 1).toNat).foldl (fun acc k =>
    let dy := -r + (k : Int)
    let dx := circHalf r dy
    draw_rect acc (cx - dx + 1) (cy + dy) (2 * dx - 1) 1 c) fb

/-- `draw_rounded_rect`: a central rectangle, two edge rectangles, and
four quarter-circle corner fills per scanline of the corner radius. -/
def draw_rounded_rect (fb : Framebuffer) (x y w h r : Int) (c : Int) :
    Framebuffer :=
  if r < 1 then draw_rect fb x y w h c
  else
    let fb1 := draw_rect fb (x + r) y (w - 2 * r) h c
    let fb2 := draw_rect fb1 x (y + r) r (h - 2 * r) c
    let fb3 := draw_rect fb2 (x + w - r) (y + r) r (h - 2 * r) c
    (List.range (r + 1).toNat).foldl (fun acc k =>
      let dy := -r + (k : Int)
      let dx := circHalf r dy
      let a1 := draw_rect acc (x + r - dx + 1) (y + r + dy) (dx - 1) 1 c
      let a2 := draw_rect a1 (x + w - r) (y + r + dy) (dx - 1) 1 c
      let a3 := draw_rect a2 (x + r - dx + 1) (y + h - 1 - r - dy) (dx - 1) 1 c
      draw_rect a3 (x + w - r) (y + h - 1 - r - dy) (dx - 1) 1 c) fb3

/-- `draw_triangle_filled`: the three conditional swaps sorting the
vertices by y, then one horizontal span per scanline with the two edge
interpolations (C integer division truncates toward zero: `Int.tdiv`). -/
def draw_triangle_filled (fb : Framebuffer) (ax ay bx bcy cx cy : Int)
    (c : Int) : Framebuffer :=
  match (if ay > bcy then (bx, bcy, ax, ay, cx, cy)
         else (ax, ay, bx, bcy, cx, cy) :
        Int × Int × Int × Int × Int × Int) with
  | (x0, y0, x1, y1, x2, y2) =>
    match (if y0 > y2 then (x2, y2, x1, y1, x0, y0)
           else (x0, y0, x1, y1, x2, y2) :
          Int × Int × Int × Int × Int × Int) with
    | (x0, y0, x1, y1, x2, y2) =>
      match (if y1 > y2 then (x0, y0, x2, y2, x1, y1)
             else (x0, y0, x1, y1, x2, y2) :
            Int × Int × Int × Int × Int × Int) with
      | (x0, y0, x1, y1, x2, y2) =>
        (List.range (y2 - y0 + 1).toNat).foldl (fun acc k =>
          let y := y0 + (k : Int)
          let xa := if y2 ≠ y0 then
              x0 + Int.tdiv ((x2 - x0) * (y - y0)) (y2 - y0) else x0
          let xb := if y < y1 then
              (if y1 ≠ y0 then
                x0 + Int.tdiv ((x1 - x0) * (y - y0)) (y1 - y0) else x0)
            else
              (if y2 ≠ y1 then
                x1 + Int.tdiv ((x2 - x1) * (y - y1)) (y2 - y1) else x1)
          let lo := if xa > xb then xb else xa
          let hi := if xa > xb then xa else xb
          draw_rect acc lo y (hi - lo + 1) 1 c) fb

/-- `draw_char`: glyph cell of 16 rows by 8 columns; each set bit of the
font byte (bit `7 - col`, i.e. `0x80 >> col`) paints one pixel (scale 1)
or one `scale × scale` block.  The font table itself is an external fixed
data resource, so the glyph byte lookup is a parameter. -/
def draw_char (font : Int → Nat → Nat) (fb : Framebuffer) (x y : Int)
    (ch : Int) (c : Int) (scale : Int) : Framebuffer :=
  if ch - 32 < 0 ∨ 95 ≤ ch - 32 then fb
  else
    (List.range 16).foldl (fun acc row =>
      (List.range 8).foldl (fun acc2 col =>
        if (font (ch - 32) row).testBit (7 - col) then
          if scale = 1 then
            draw_pixel acc2 (x + (col : Int)) (y + (row : Int)) c
          else
            draw_rect acc2 (x + (col : Int) * scale) (y + (row : Int) * scale)
              scale scale c
        else acc2) acc) fb

/-- A well-formed surface: non-negative width and height, and a row
stride at least the visible width (as set up by `fb_init`). -/
def FbWF (fb : Framebuffer) : Prop :=
  0 ≤ fb.width ∧ fb.width ≤ fb.stride_px ∧ 0 ≤ fb.height

instance (fb : Framebuffer) : Decidable (FbWF fb) := by
  unfold FbWF; infer_instance

/-- A back-buffer index outside the allocated `stride_px * height`
pixels. -/
def FbOutside (fb : Framebuffer) (idx : Int) : Prop :=
  idx < 0 ∨ fb.stride_px * fb.height ≤ idx

instance (fb : Framebuffer) (idx : Int) : Decidable (FbOutside fb idx) := by
  unfold FbOutside; infer_instance

/-- `g` has the geometry of `fb` and agrees with it outside the allocated
buffer. -/
def Untouched (fb g : Framebuffer) : Prop :=
  g.width = fb.width ∧ g.height = fb.height ∧ g.stride_px = fb.stride_px ∧
  ∀ idx : Int, FbOutside fb idx → g.backbuf idx = fb.backbuf idx

theorem untouched_refl (fb : Framebuffer) : Untouched fb fb :=
  ⟨rfl, rfl, rfl, fun _ _ => rfl⟩

/-- A clipped pixel write never touches memory outside the buffer. -/
theorem untouched_pixel (fb : Framebuffer) (hwf : FbWF fb)
    (g : Framebuffer) (hg : Untouched fb g) (x y c : Int) :
    Untouched fb (draw_pixel g x y c) := by
  obtain ⟨hw, hh, hs, hb⟩ := hg
  unfold draw_pixel
  split_ifs with hin
  · refine ⟨hw, hh, hs, fun idx hout => ?_⟩
    obtain ⟨hx0, hxw, hy0, hyh⟩ := hin
    rw [hw] at hxw
    rw [hh] at hyh
    have hsnn : 0 ≤ fb.stride_px := le_trans hwf.1 hwf.2.1
    have hA : 0 ≤ y * fb.stride_px := mul_nonneg hy0 hsnn
    have h1 : (y + 1) * fb.stride_px ≤ fb.height * fb.stride_px :=
      mul_le_mul_of_nonneg_right (by omega) hsnn
    have h2 : y * fb.stride_px + fb.stride_px ≤ fb.stride_px * fb.height := by
      calc y * fb.stride_px + fb.stride_px
          = (y + 1) * fb.stride_px := by ring
        _ ≤ fb.height * fb.stride_px := h1
        _ = fb.stride_px * fb.height := mul_comm _ _
    have h3 : x < fb.stride_px := lt_of_lt_of_le hxw hwf.2.1
    have hne : idx ≠ y * g.stride_px + x := by
      rw [hs]
      rcases hout with h | h <;> omega
    show Function.update g.backbuf (y * g.stride_px + x) c idx = fb.backbuf idx
    rw [Function.update_noteq hne]
    exact hb idx hout
  · exact ⟨hw, hh, hs, hb⟩

/-- Folding a write-only step over a list preserves the frame property. -/
theorem untouched_foldl {α : Type} (fb : Framebuffer)
    (f : Framebuffer → α → Framebuffer)
    (hf : ∀ g a, Untouched fb g → Untouched fb (f g a)) :
    ∀ (l : List α) (g : Framebuffer),
      Untouched fb g → Untouched fb (l.foldl f g) := by
  intro l
  induction l with
  | nil => intro g hg; exact hg
  | cons a t ih => intro g hg; exact ih (f g a) (hf g a hg)

theorem untouched_rect (fb : Framebuffer) (hwf : FbWF fb)
    (g : Framebuffer) (hg : Untouched fb g) (x y w h c : Int) :
    Untouched fb (draw_rect g x y w h c) := by
  unfold draw_rect
  refine untouched_foldl fb _ (fun g2 row hg2 => ?_) _ g hg
  exact untouched_foldl fb _
    (fun g3 col hg3 => untouched_pixel fb hwf g3 hg3 _ _ _) _ g2 hg2

theorem untouched_circle (fb : Framebuffer) (hwf : FbWF fb)
    (g : Framebuffer) (hg : Untouched fb g) (cx cy r c : Int) :
    Untouched fb (draw_circle g cx cy r c) := by
  unfold draw_circle
  exact untouched_foldl fb _
    (fun g2 k hg2 => untouched_rect fb hwf g2 hg2 _ _ _ _ _) _ g hg

theorem untouched_rounded_rect (fb : Framebuffer) (hwf : FbWF fb)
    (g : Framebuffer) (hg : Untouched fb g) (x y w h r c : Int) :
    Untouched fb (draw_rounded_rect g x y w h r c) := by
  unfold draw_rounded_rect
  split_ifs
  · exact untouched_rect fb hwf g hg _ _ _ _ _
  · refine untouched_foldl fb _ (fun g2 k hg2 => ?_) _ _ ?_
    · exact untouched_rect fb hwf _
        (untouched_rect fb hwf _
          (untouched_rect fb hwf _
            (untouched_rect fb hwf g2 hg2 _ _ _ _ _) _ _ _ _ _) _ _ _ _ _)
        _ _ _ _ _
    · exact untouched_rect fb hwf _
        (untouched_rect fb hwf _
          (untouched_rect fb hwf g hg _ _ _ _ _) _ _ _ _ _) _ _ _ _ _

theorem untouched_triangle (fb : Framebuffer) (hwf : FbWF fb)
    (g : Framebuffer) (hg : Untouched fb g)
    (ax ay bx bcy cx cy c : Int) :
    Untouched fb (draw_triangle_filled g ax ay bx bcy cx cy c) := by
  unfold draw_triangle_filled
  split
  split
  split
  exact untouched_foldl fb _
    (fun g2 k hg2 => untouched_rect fb hwf g2 hg2 _ _ _ _ _) _ g hg

theorem untouched_char (fb : Framebuffer) (hwf : FbWF fb)
    (g : Framebuffer) (hg : Untouched fb g)
    (font : Int → Nat → Nat) (x y ch c scale : Int) :
    Untouched fb (draw_char font g x y ch c scale) := by
  unfold draw_char
  split
  · exact hg
  · refine untouched_foldl fb _ (fun g2 row hg2 => ?_) _ g hg
    refine untouched_foldl fb _ (fun g3 col hg3 => ?_) _ g2 hg2
    split
    · split
      · exact untouched_pixel fb hwf g3 hg3 _ _ _
      · exact untouched_rect fb hwf g3 hg3 _ _ _ _ _
    · exact hg3

/-- C9: on a well-formed surface, every drawing primitive clips silently —
out-of-bounds coordinates are skipped by the pixel guard, and no primitive
ever writes outside the allocated back buffer (all primitives are total
functions returning the new surface; none signals an error). -/
theorem primitives_clip :
    ∀ fb : Framebuffer, FbWF fb →
      (∀ x y c, (x < 0 ∨ fb.width ≤ x ∨ y < 0 ∨ fb.height ≤ y) →
        draw_pixel fb x y c = fb) ∧
      ∀ idx : Int, FbOutside fb idx →
        (∀ x y c, (draw_pixel fb x y c).backbuf idx = fb.backbuf idx) ∧
        (∀ x y w h c,
          (draw_rect fb x y w h c).backbuf idx = fb.backbuf idx) ∧
        (∀ cx cy r c,
          (draw_circle fb cx cy r c).backbuf idx = fb.backbuf idx) ∧
        (∀ x y w h r c,
          (draw_rounded_rect fb x y w h r c).backbuf idx = fb.backbuf idx) ∧
        (∀ ax ay bx bcy cx cy c,
          (draw_triangle_filled fb ax ay bx bcy cx cy c).backbuf idx =
            fb.backbuf idx) ∧
        (∀ font x y ch c scale,
          (draw_char font fb x y ch c scale).backbuf idx =
            fb.backbuf idx) := by
  intro fb hwf
  constructor
  · intro x y c hout
    unfold draw_pixel
    rw [if_neg]
    rintro ⟨h1, h2, h3, h4⟩
    rcases hout with h | h | h | h <;> omega
  · intro idx hout
    refine ⟨fun x y c => ?_, fun x y w h c => ?_, fun cx cy r c => ?_,
      fun x y w h r c => ?_, fun ax ay bx bcy cx cy c => ?_,
      fun font x y ch c scale => ?_⟩
    · exact (untouched_pixel fb hwf fb (untouched_refl fb) x y c).2.2.2
        idx hout
    · exact (untouched_rect fb hwf fb (untouched_refl fb) x y w h c).2.2.2
        idx hout
    · exact (untouched_circle fb hwf fb (untouched_refl fb) cx cy r c).2.2.2
        idx hout
    · exact (untouched_rounded_rect fb hwf fb (untouched_refl fb)
        x y w h r c).2.2.2 idx hout
    · exact (untouched_triangle fb hwf fb (untouched_refl fb)
        ax ay bx bcy cx cy c).2.2.2 idx hout
    · exact (untouched_char fb hwf fb (untouched_refl fb)
        font x y ch c scale).2.2.2 idx hout

/-- Witness for C9 on a concrete 2×2 surface: a rectangle spilling far
past the edges leaves the first out-of-buffer cell and the buffer-exterior
untouched, and a fully out-of-bounds pixel write is a no-op. -/
theorem primitives_clip_witness :
    FbWF ⟨2, 2, 2, fun _ => 0⟩ ∧ FbOutside ⟨2, 2, 2, fun _ => 0⟩ 4 ∧
    (draw_rect ⟨2, 2, 2, fun _ => 0⟩ 0 0 9 9 7).backbuf 4 =
      (⟨2, 2, 2, fun _ => 0⟩ : Framebuffer).backbuf 4 ∧
    draw_pixel ⟨2, 2, 2, fun _ => 0⟩ 5 0 7 = ⟨2, 2, 2, fun _ => 0⟩ :=
  ⟨by decide, by decide,
    ((primitives_clip ⟨2, 2, 2, fun _ => 0⟩ (by decide)).2 4
      (by decide)).2.1 0 0 9 9 7,
    (primitives_clip ⟨2, 2, 2, fun _ => 0⟩ (by decide)).1 5 0 7
      (Or.inr (Or.inl (by decide)))⟩

end K2J
